import Mathlib

/-!
Verification of `src/fork_analysis.py` (the 1code fork-analysis script).

The Python program is embedded shallowly:

* HTTP traffic is abstracted by `HttpResponse` values handed to
  `fetch_github_api`; the body field stands for the parsed JSON payload.
* A Python dict record is a `Record` whose fields are `Option`-valued:
  `none` models an absent key, and dict bracket access is `Option.bind`
  (so a `KeyError` surfaces as `none` in the `Option` monad), while
  `dict.get(k, d)` is `Option.getD`.
* `list.sort(key=..., reverse=True)` (a stable sort, descending in the
  key) is embedded as the structurally recursive stable insertion sort
  `sortRecords`; its characterizing properties (permutation, descending
  pairwise order, and stability on each key class) are proved below.
* Console printing and sleeping are recorded in trace fields.
-/

namespace ForkAnalysis

/-! ### HTTP layer (`fetch_github_api`) -/

/-- One HTTP response: its status code and its (parsed JSON) body. -/
structure HttpResponse where
  status : Nat
  body : String
deriving DecidableEq

/-- Statuses for which `requests.Response.raise_for_status` raises:
the 4xx and 5xx ranges. -/
def is_http_error (s : Nat) : Bool := decide (400 ≤ s) && decide (s < 600)

/-- Model of `response.raise_for_status()`: raises an HTTP error carrying
status and body on 4xx/5xx, otherwise succeeds. -/
def raise_for_status (r : HttpResponse) : Except (Nat × String) Unit :=
  if is_http_error r.status then Except.error (r.status, r.body) else Except.ok ()

/-- Observable outcome of one `fetch_github_api` call: how many GET
requests were issued, the sleeps performed (seconds), the console lines
printed, and the result (parsed JSON body, or the raised HTTP error). -/
structure FetchTrace where
  requests : Nat
  sleeps : List Nat
  printed : List String
  result : Except (Nat × String) String

/-- Embedding of `fetch_github_api(url)`.  `resp1` is the response to the
first GET; `resp2` is the response the server would give to the retry
(only consulted when the first response is a 403). -/
def fetch_github_api (resp1 resp2 : HttpResponse) : FetchTrace :=
  if resp1.status = 403 then
    { requests := 2
      sleeps := [60]
      printed := ["Rate limited! Waiting 60 seconds..."]
      result :=
        match raise_for_status resp2 with
        | Except.error e => Except.error e
        | Except.ok _ => Except.ok resp2.body }
  else
    { requests := 1
      sleeps := []
      printed := []
      result :=
        match raise_for_status resp1 with
        | Except.error e => Except.error e
        | Except.ok _ => Except.ok resp1.body }

/-! ### Records (Python dicts produced by `analyze_fork`) -/

/-- A per-fork record.  Each field is `Option`-valued: `none` models a key
absent from the Python dict. -/
structure Record where
  owner : Option String := none
  url : Option String := none
  stars : Option Int := none
  description : Option String := none
  created_at : Option String := none
  updated_at : Option String := none
  custom_branches : Option (List String) := none
  branch_count : Option Int := none
  ahead_by : Option Int := none
  behind_by : Option Int := none
  recent_commits : Option (List String) := none
  interesting : Option Bool := none
  error : Option (Option String) := none
deriving DecidableEq

/-! ### The sort used by `generate_report`

`interesting.sort(key=lambda x: (x.get('stars',0), x.get('ahead_by',0),
x.get('branch_count',0)), reverse=True)` is Python's stable sort,
descending lexicographically in the key triple. -/

/-- The sort key of a record: `(stars, ahead_by, branch_count)`, each read
with `dict.get(k, 0)`. -/
def sortKeyOf (r : Record) : Int × Int × Int :=
  (r.stars.getD 0, r.ahead_by.getD 0, r.branch_count.getD 0)

/-- Lexicographic `≤` on integer triples (Python tuple comparison). -/
def lexLE (a b : Int × Int × Int) : Bool :=
  decide (a.1 < b.1) ||
    (decide (a.1 = b.1) &&
      (decide (a.2.1 < b.2.1) ||
        (decide (a.2.1 = b.2.1) && decide (a.2.2 ≤ b.2.2))))

/-- Comparator of the Python sort: `recLE a b` holds when `a` may stay
before `b`, i.e. when `a`'s key is lexicographically ≥ `b`'s
(`reverse=True` sorts descending). -/
def recLE (a b : Record) : Bool := lexLE (sortKeyOf b) (sortKeyOf a)

/-- Stable insertion of a record into a (descending-sorted) list:
`r` goes in front of the first element it is `recLE`-before, so among
equal keys the inserted (earlier-in-input) record stays first. -/
def sortInsert (r : Record) : List Record → List Record
  | [] => [r]
  | x :: xs => if recLE r x then r :: x :: xs else x :: sortInsert r xs

/-- Stable sort of a record list, descending in `sortKeyOf`: the embedding
of `list.sort(key=..., reverse=True)`. -/
def sortRecords : List Record → List Record
  | [] => []
  | x :: xs => sortInsert x (sortRecords xs)

/-! ### String helpers used by the report -/

/-- ASCII lower-casing, the model of Python `str.lower()` (all strings the
program compares are ASCII). -/
def lower (s : String) : String := String.mk (s.toList.map Char.toLower)

/-- Substring test on character lists: `needle` occurs contiguously in the
list.  Model of Python `needle in hay`. -/
def subOccurs (needle : List Char) : List Char → Bool
  | [] => needle.isEmpty
  | c :: cs => needle.isPrefixOf (c :: cs) || subOccurs needle cs

/-- Model of Python `needle in hay` for strings. -/
def hasSubstr (hay needle : String) : Bool := subOccurs needle.toList hay.toList

/-- Python `s[:80]`: the first 80 characters of `s`. -/
def truncate80 (s : String) : String := String.mk (s.toList.take 80)

/-- Python `message.split('\n')[0]`: the text before the first newline. -/
def firstLine (s : String) : String :=
  String.mk (s.toList.takeWhile (fun c => decide (c ≠ '\n')))

/-- The keyword list of `generate_report`'s commit filter. -/
def mergeKeywords : List String := ["merge", "upstream", "sync"]

/-- The commit filter of `generate_report`: keep a commit line unless its
lower-cased text contains one of the keywords. -/
def uniqueCommits (cs : List String) : List String :=
  cs.filter (fun c => !(mergeKeywords.any (fun kw => hasSubstr (lower c) kw)))

/-- The commit lines the detail block renders: the first 3 unique commits,
each truncated to 80 characters and prefixed by `  - `. -/
def shownCommitLines (cs : List String) : List String :=
  ((uniqueCommits cs).take 3).map (fun c => "  - " ++ truncate80 c)

/-! ### `generate_report`

The function returns `none` exactly when the Python code would raise a
`KeyError` (a bracket access on an absent key); otherwise `some` of the
produced lines. -/

/-- Records kept by the filter `[r for r in results if r.get('interesting',
False)]`. -/
def interestingOf (results : List Record) : List Record :=
  results.filter (fun r => r.interesting.getD false)

/-- The filtered-and-sorted list both report sections draw from. -/
def sortedInteresting (results : List Record) : List Record :=
  sortRecords (interestingOf results)

/-- Sequencing of an Option-producing function over a list: `some` of all
results, or `none` as soon as one application is `none` (the loop in
`generate_report` aborts at the first `KeyError`). -/
def mapOpt (f : α → Option β) : List α → Option (List β)
  | [] => some []
  | x :: xs => (f x).bind fun y => (mapOpt f xs).bind fun ys => some (y :: ys)

/-- One numbered entry of the `## Most Interesting Forks` block
(`generate_report`'s per-fork body).  Bracket accesses are `Option.bind`;
`dict.get` guards are the `if` conditions. -/
def detailEntry (i : Nat) (fork : Record) : Option (List String) :=
  fork.owner.bind fun owner =>
  fork.url.bind fun url =>
  (if fork.description.getD "" ≠ "" then
      fork.description.bind fun d => some ["**Description:** " ++ d]
    else some []).bind fun l2 =>
  (if fork.branch_count.getD 0 > 0 then
      fork.custom_branches.bind fun bs =>
        some ["**Custom Branches:** " ++ String.intercalate ", " bs]
    else some []).bind fun l3 =>
  (if fork.ahead_by.getD 0 > 0 then
      fork.ahead_by.bind fun a =>
        some ["**Ahead of upstream:** " ++ toString a ++ " commits"]
    else some []).bind fun l4 =>
  (if fork.behind_by.getD 0 > 0 then
      fork.behind_by.bind fun b =>
        some ["**Behind upstream:** " ++ toString b ++ " commits"]
    else some []).bind fun l5 =>
  (if fork.recent_commits.getD [] ≠ [] then
      fork.recent_commits.bind fun rc =>
        if uniqueCommits rc ≠ [] then
          some ("**Recent Unique Commits:**" :: shownCommitLines rc)
        else some []
    else some []).bind fun l6 =>
  some (["### " ++ toString i ++ ". " ++ owner,
         "**URL:** " ++ url,
         "**Stars:** " ++ toString (fork.stars.getD 0)]
        ++ l2 ++ l3 ++ l4 ++ l5 ++ l6
        ++ (if fork.stars.getD 0 ≥ 5 ∨ fork.ahead_by.getD 0 ≥ 5 ∨
              fork.branch_count.getD 0 ≥ 2
            then ["**⚠️ WORTH INVESTIGATING**"] else [])
        ++ [""])

/-- The `## Most Interesting Forks` block: present only when at least one
record is interesting; shows the top 20 in sorted order. -/
def detailBlock (interesting : List Record) : Option (List String) :=
  if interesting ≠ [] then
    (mapOpt (fun p => detailEntry p.1 p.2)
        (List.enumFrom 1 (interesting.take 20))).bind
      fun entries => some ("## Most Interesting Forks" :: "" :: entries.flatten)
  else some []

/-- One numbered entry of the recommendations block. -/
def recEntry (i : Nat) (fork : Record) : Option (List String) :=
  fork.owner.bind fun owner =>
  fork.url.bind fun url =>
  (if fork.stars.getD 0 > 0 then
      fork.stars.bind fun st => some [toString st ++ " stars"]
    else some []).bind fun r1 =>
  (if fork.ahead_by.getD 0 > 0 then
      fork.ahead_by.bind fun a => some [toString a ++ " commits ahead"]
    else some []).bind fun r2 =>
  (if fork.branch_count.getD 0 > 0 then
      fork.branch_count.bind fun b => some [toString b ++ " custom branches"]
    else some []).bind fun r3 =>
  some [toString i ++ ". **" ++ owner ++ "** - " ++
          (if r1 ++ r2 ++ r3 ≠ [] then String.intercalate ", " (r1 ++ r2 ++ r3)
           else "Active fork"),
        "   " ++ url]

/-- The body under `## Recommendations`: heading plus the top-5 entries,
present only when some record is interesting. -/
def recommendationsBlock (interesting : List Record) : Option (List String) :=
  if interesting.take 5 ≠ [] then
    (mapOpt (fun p => recEntry p.1 p.2)
        (List.enumFrom 1 (interesting.take 5))).bind
      fun entries => some ("### Top 5 Forks to Review:" :: entries.flatten)
  else some []

/-- The `## Summary` block (always present). -/
def summaryBlock (results interesting : List Record) : List String :=
  ["## Summary",
   "- Total forks analyzed: " ++ toString results.length,
   "- Interesting forks: " ++ toString interesting.length,
   "- Forks with custom branches: " ++
     toString (interesting.countP (fun r => decide (r.branch_count.getD 0 > 0))),
   "- Forks ahead of upstream: " ++
     toString (interesting.countP (fun r => decide (r.ahead_by.getD 0 > 0))),
   "- Forked repos with stars: " ++
     toString (interesting.countP (fun r => decide (r.stars.getD 0 > 0))),
   ""]

/-- The report body built from the already filtered-and-sorted list
(`interesting` after the in-place sort in the Python code). -/
def reportFromSorted (results interesting : List Record) (now : String) :
    Option (List String) :=
  (detailBlock interesting).bind fun db =>
  (recommendationsBlock interesting).bind fun rb =>
  some (["# 1code Fork Analysis Report", "Generated: " ++ now, ""]
        ++ summaryBlock results interesting
        ++ db
        ++ ["## Recommendations", ""]
        ++ rb)

/-- The lines of the generated report.  `now` abstracts
`datetime.now().strftime(...)`, the only run-dependent input. -/
def reportLines (results : List Record) (now : String) : Option (List String) :=
  reportFromSorted results (sortedInteresting results) now

/-- Embedding of `generate_report`, threading the local variables the
Python code assigns: the filter builds a fresh list `interesting`,
the in-place sort is applied to that fresh list, and the function
returns the report next to the final value of the caller's `results`
list (which the body never mutates). -/
def generate_report_run (results : List Record) (now : String) :
    Option String × List Record :=
  let interesting := interestingOf results
  let interesting := sortRecords interesting
  ((reportFromSorted results interesting now).map (String.intercalate "\n"),
   results)

/-- Embedding of `generate_report(results)`: the joined report text, or
`none` where the Python code would raise a `KeyError`. -/
def generate_report (results : List Record) (now : String) : Option String :=
  (generate_report_run results now).1

/-! ### `analyze_fork` -/

/-- The fields of the repo-details JSON that `analyze_fork` reads,
each optional because the code reads them with `dict.get`. -/
structure RepoData where
  stargazers_count : Option Int := none
  description : Option String := none
  created_at : Option String := none
  updated_at : Option String := none

/-- The fields of the comparison JSON that `analyze_fork` reads. -/
structure Comparison where
  ahead_by : Option Int := none
  behind_by : Option Int := none

/-- Outcomes of the four fetches `analyze_fork` performs for one owner;
`Except.error` carries the exception message.  Branch items are reduced
to their `name` field and commit items to their `commit.message`
field, the only parts the code reads. -/
structure ApiEnv where
  repo : Except String RepoData
  branches : Except String (List String)
  commits : Except String (List String)
  comparison : Except String Comparison

/-- Embedding of `analyze_fork(owner)`.  Each inner `try` block becomes a
`match` on the corresponding fetch outcome: on failure the fields keep
the defaults the initial dict literal gave them.  A failing repo-details
fetch short-circuits to the minimal error record. -/
def analyze_fork (owner : String) (env : ApiEnv) : Record :=
  match env.repo with
  | Except.error e =>
    { owner := some owner, error := some (some e), interesting := some false }
  | Except.ok repo_data =>
    let stars := repo_data.stargazers_count.getD 0
    let custom_branches :=
      match env.branches with
      | Except.ok branches_data =>
        branches_data.filter (fun n => !(n == "main" || n == "master"))
      | Except.error _ => []
    let branch_count : Int :=
      match env.branches with
      | Except.ok _ => (custom_branches.length : Int)
      | Except.error _ => 0
    let recent_commits :=
      match env.commits with
      | Except.ok commits_data => commits_data.map firstLine
      | Except.error _ => []
    let ahead_by :=
      match env.comparison with
      | Except.ok comparison_data => comparison_data.ahead_by.getD 0
      | Except.error _ => 0
    let behind_by :=
      match env.comparison with
      | Except.ok comparison_data => comparison_data.behind_by.getD 0
      | Except.error _ => 0
    { owner := some owner
      url := some ("https://github.com/" ++ owner ++ "/1code")
      stars := some stars
      description := some (repo_data.description.getD "")
      created_at := some (repo_data.created_at.getD "")
      updated_at := some (repo_data.updated_at.getD "")
      custom_branches := some custom_branches
      branch_count := some branch_count
      ahead_by := some ahead_by
      behind_by := some behind_by
      recent_commits := some recent_commits
      interesting := some (branch_count > 0 || ahead_by > 0 || stars > 0)
      error := some none }

/-! ### Driver console summary (`main`) -/

/-- The list `main` iterates for its console summary: the interesting
records in input order, first five (`interesting[:5]`, where
`interesting` is the unsorted filter result). -/
def console_top (results : List Record) : List Record :=
  (results.filter (fun r => r.interesting.getD false)).take 5

/-- The five records the report's recommendations block renders. -/
def report_top (results : List Record) : List Record :=
  (sortedInteresting results).take 5

/-- Well-formedness from the data model: a record claiming
`interesting = true` carries every field a successful `analyze_fork`
sets.  Error records (`interesting = false`) are unconstrained. -/
def WellFormed (r : Record) : Prop :=
  r.interesting.getD false = true →
    (r.owner.isSome ∧ r.url.isSome ∧ r.stars.isSome ∧ r.description.isSome ∧
     r.custom_branches.isSome ∧ r.branch_count.isSome ∧ r.ahead_by.isSome ∧
     r.behind_by.isSome ∧ r.recent_commits.isSome)


/-! ### Sample data for concrete witnesses -/

/-- A well-formed interesting record with 1 star (as a successful
`analyze_fork` would produce). -/
def recLow : Record :=
  { owner := some "low", url := some "https://github.com/low/1code",
    stars := some 1, description := some "", created_at := some "",
    updated_at := some "", custom_branches := some [], branch_count := some 0,
    ahead_by := some 0, behind_by := some 0, recent_commits := some [],
    interesting := some true, error := some none }

/-- A well-formed interesting record with 5 stars. -/
def recHigh : Record :=
  { owner := some "high", url := some "https://github.com/high/1code",
    stars := some 5, description := some "", created_at := some "",
    updated_at := some "", custom_branches := some [], branch_count := some 0,
    ahead_by := some 0, behind_by := some 0, recent_commits := some [],
    interesting := some true, error := some none }

/-- A sample environment in which every fetch succeeds. -/
def envAllOk : ApiEnv :=
  { repo := Except.ok { stargazers_count := some 2 }
    branches := Except.ok ["main", "dev"]
    commits := Except.ok ["Fix crash\nlong body", "Merge branch main"]
    comparison := Except.ok { ahead_by := some 3 } }

/-- A sample environment whose repo-details fetch fails. -/
def envRepoFails : ApiEnv :=
  { repo := Except.error "404 Client Error"
    branches := Except.error "skipped"
    commits := Except.error "skipped"
    comparison := Except.error "skipped" }

/-! ### Theorems -/

theorem lexLE_iff (a b : Int × Int × Int) :
    lexLE a b = true ↔
      a.1 < b.1 ∨ (a.1 = b.1 ∧ (a.2.1 < b.2.1 ∨ (a.2.1 = b.2.1 ∧ a.2.2 ≤ b.2.2))) := by
  simp [lexLE]

theorem lexLE_refl (a : Int × Int × Int) : lexLE a a = true := by
  simp [lexLE_iff]

theorem lexLE_total (a b : Int × Int × Int) : lexLE a b = true ∨ lexLE b a = true := by
  obtain ⟨a1, a2, a3⟩ := a
  obtain ⟨b1, b2, b3⟩ := b
  simp only [lexLE_iff]
  omega

theorem lexLE_trans {a b c : Int × Int × Int}
    (hab : lexLE a b = true) (hbc : lexLE b c = true) : lexLE a c = true := by
  obtain ⟨a1, a2, a3⟩ := a
  obtain ⟨b1, b2, b3⟩ := b
  obtain ⟨c1, c2, c3⟩ := c
  simp only [lexLE_iff] at hab hbc ⊢
  omega

theorem lexLE_antisymm {a b : Int × Int × Int}
    (hab : lexLE a b = true) (hba : lexLE b a = true) : a = b := by
  obtain ⟨a1, a2, a3⟩ := a
  obtain ⟨b1, b2, b3⟩ := b
  simp only [lexLE_iff] at hab hba
  simp only [Prod.mk.injEq]
  omega

theorem recLE_refl (r : Record) : recLE r r = true := lexLE_refl _

theorem recLE_total (a b : Record) : recLE a b = true ∨ recLE b a = true :=
  lexLE_total (sortKeyOf b) (sortKeyOf a)

theorem recLE_trans {a b c : Record}
    (hab : recLE a b = true) (hbc : recLE b c = true) : recLE a c = true :=
  lexLE_trans hbc hab

theorem recLE_of_not {a b : Record} (h : ¬ recLE a b = true) : recLE b a = true := by
  rcases recLE_total a b with h1 | h1
  · exact absurd h1 h
  · exact h1

theorem sortInsert_cons (r x : Record) (xs : List Record) :
    sortInsert r (x :: xs) =
      if recLE r x then r :: x :: xs else x :: sortInsert r xs := rfl

theorem sortInsert_perm (r : Record) (l : List Record) :
    List.Perm (sortInsert r l) (r :: l) := by
  induction l with
  | nil => simp [sortInsert]
  | cons x xs ih =>
    by_cases h : recLE r x = true
    · rw [sortInsert_cons, if_pos h]
    · rw [sortInsert_cons, if_neg h]
      exact (ih.cons x).trans (List.Perm.swap r x xs)

theorem sortRecords_perm (l : List Record) : List.Perm (sortRecords l) l := by
  induction l with
  | nil => simp [sortRecords]
  | cons x xs ih =>
    exact (sortInsert_perm x (sortRecords xs)).trans (ih.cons x)

theorem mem_sortRecords {r : Record} {l : List Record} :
    r ∈ sortRecords l ↔ r ∈ l :=
  (sortRecords_perm l).mem_iff

theorem sortInsert_pairwise {r : Record} {l : List Record}
    (h : l.Pairwise (fun a b => recLE a b = true)) :
    (sortInsert r l).Pairwise (fun a b => recLE a b = true) := by
  induction l with
  | nil => simp [sortInsert]
  | cons x xs ih =>
    rcases List.pairwise_cons.mp h with ⟨hx, hxs⟩
    by_cases hr : recLE r x = true
    · rw [sortInsert_cons, if_pos hr]
      refine List.pairwise_cons.mpr ⟨?_, h⟩
      intro y hy
      rcases List.mem_cons.mp hy with rfl | hy
      · exact hr
      · exact recLE_trans hr (hx y hy)
    · rw [sortInsert_cons, if_neg hr]
      refine List.pairwise_cons.mpr ⟨?_, ih hxs⟩
      intro y hy
      rcases List.mem_cons.mp ((sortInsert_perm r xs).mem_iff.mp hy) with h1 | h1
      · subst h1
        exact recLE_of_not hr
      · exact hx y h1

theorem sortRecords_pairwise (l : List Record) :
    (sortRecords l).Pairwise (fun a b => recLE a b = true) := by
  induction l with
  | nil => simp [sortRecords]
  | cons x xs ih => exact sortInsert_pairwise ih

theorem sortRecords_of_pairwise {l : List Record}
    (h : l.Pairwise (fun a b => recLE a b = true)) : sortRecords l = l := by
  induction l with
  | nil => rfl
  | cons x xs ih =>
    rcases List.pairwise_cons.mp h with ⟨hx, hxs⟩
    show sortInsert x (sortRecords xs) = x :: xs
    rw [ih hxs]
    cases xs with
    | nil => rfl
    | cons y ys =>
      rw [sortInsert_cons, if_pos (hx y (List.mem_cons_self y ys))]

theorem sortInsert_filter_key_eq {r : Record} {k : Int × Int × Int}
    (hk : sortKeyOf r = k) (l : List Record) :
    (sortInsert r l).filter (fun x => decide (sortKeyOf x = k)) =
      r :: l.filter (fun x => decide (sortKeyOf x = k)) := by
  induction l with
  | nil => simp [sortInsert, List.filter, hk]
  | cons x xs ih =>
    by_cases hr : recLE r x = true
    · rw [sortInsert_cons, if_pos hr, List.filter_cons, List.filter_cons, if_pos (by simpa using hk)]
    · have hxk : ¬ sortKeyOf x = k := by
        intro he
        apply hr
        show lexLE (sortKeyOf x) (sortKeyOf r) = true
        rw [he, hk]
        exact lexLE_refl k
      rw [sortInsert_cons, if_neg hr, List.filter_cons, List.filter_cons,
        if_neg (by simpa using hxk), if_neg (by simpa using hxk), ih]

theorem sortInsert_filter_key_ne {r : Record} {k : Int × Int × Int}
    (hk : ¬ sortKeyOf r = k) (l : List Record) :
    (sortInsert r l).filter (fun x => decide (sortKeyOf x = k)) =
      l.filter (fun x => decide (sortKeyOf x = k)) := by
  induction l with
  | nil => simp [sortInsert, List.filter, hk]
  | cons x xs ih =>
    by_cases hr : recLE r x = true
    · rw [sortInsert_cons, if_pos hr, List.filter_cons, List.filter_cons, if_neg (by simpa using hk)]
    · rw [sortInsert_cons, if_neg hr, List.filter_cons, List.filter_cons, ih]

theorem sortRecords_filter_key (l : List Record) (k : Int × Int × Int) :
    (sortRecords l).filter (fun x => decide (sortKeyOf x = k)) =
      l.filter (fun x => decide (sortKeyOf x = k)) := by
  induction l with
  | nil => rfl
  | cons x xs ih =>
    show (sortInsert x (sortRecords xs)).filter _ = _
    by_cases hk : sortKeyOf x = k
    · rw [sortInsert_filter_key_eq hk, ih, List.filter_cons, if_pos (by simpa using hk)]
    · rw [sortInsert_filter_key_ne hk, ih, List.filter_cons, if_neg (by simpa using hk)]

theorem analyze_fork_wellFormed (owner : String) (env : ApiEnv) :
    WellFormed (analyze_fork owner env) := by
  obtain ⟨repo, branches, commits, comparison⟩ := env
  cases repo with
  | error e =>
    intro h
    simp [analyze_fork] at h
  | ok rd =>
    intro h
    simp [analyze_fork]


/-- C2: `fetch_github_api` issues at most two GET requests; on a 403 first
response it prints the notice, sleeps exactly 60 seconds and retries once;
a 403 followed by a 2xx returns the retried parsed body with no error and
no further request; any (possibly retried) failing status raises an HTTP
error carrying that response's status and body. -/
theorem fetch_retry_spec (resp1 resp2 : HttpResponse) :
    (fetch_github_api resp1 resp2).requests ≤ 2
    ∧ (resp1.status = 403 →
        (fetch_github_api resp1 resp2).requests = 2
        ∧ (fetch_github_api resp1 resp2).sleeps = [60]
        ∧ (fetch_github_api resp1 resp2).printed =
            ["Rate limited! Waiting 60 seconds..."])
    ∧ (resp1.status ≠ 403 →
        (fetch_github_api resp1 resp2).requests = 1
        ∧ (fetch_github_api resp1 resp2).sleeps = [])
    ∧ (resp1.status = 403 → 200 ≤ resp2.status → resp2.status < 300 →
        (fetch_github_api resp1 resp2).result = Except.ok resp2.body)
    ∧ (resp1.status = 403 → is_http_error resp2.status = true →
        (fetch_github_api resp1 resp2).result =
          Except.error (resp2.status, resp2.body))
    ∧ (resp1.status ≠ 403 → is_http_error resp1.status = true →
        (fetch_github_api resp1 resp2).result =
          Except.error (resp1.status, resp1.body)) := by
  by_cases h : resp1.status = 403
  · refine ⟨?_, ?_, ?_, ?_, ?_, ?_⟩
    · simp [fetch_github_api, h]
    · intro _
      simp [fetch_github_api, h]
    · intro hne
      exact absurd h hne
    · intro _ h2 h3
      have hok : is_http_error resp2.status = false := by
        simp [is_http_error]
        omega
      simp [fetch_github_api, h, raise_for_status, hok]
    · intro _ herr
      simp [fetch_github_api, h, raise_for_status, herr]
    · intro hne
      exact absurd h hne
  · refine ⟨?_, ?_, ?_, ?_, ?_, ?_⟩
    · simp [fetch_github_api, h]
    · intro h403
      exact absurd h403 h
    · intro _
      simp [fetch_github_api, h]
    · intro h403
      exact absurd h403 h
    · intro h403
      exact absurd h403 h
    · intro _ herr
      simp [fetch_github_api, h, raise_for_status, herr]

/-- Witness for C2 at concrete responses: a 403 then a 200 yields the 200
body after one retry and one 60-second sleep; a 403 then a 500 raises the
500 error. -/
theorem fetch_retry_spec_witness :
    (fetch_github_api ⟨403, "limited"⟩ ⟨200, "payload"⟩).result = Except.ok "payload"
    ∧ (fetch_github_api ⟨403, "limited"⟩ ⟨200, "payload"⟩).requests = 2
    ∧ (fetch_github_api ⟨403, "limited"⟩ ⟨200, "payload"⟩).sleeps = [60]
    ∧ (fetch_github_api ⟨403, "limited"⟩ ⟨500, "boom"⟩).result =
        Except.error (500, "boom")
    ∧ (fetch_github_api ⟨404, "missing"⟩ ⟨200, "unused"⟩).result =
        Except.error (404, "missing") :=
  ⟨(fetch_retry_spec ⟨403, "limited"⟩ ⟨200, "payload"⟩).2.2.2.1 rfl
      (by decide) (by decide),
   ((fetch_retry_spec ⟨403, "limited"⟩ ⟨200, "payload"⟩).2.1 rfl).1,
   ((fetch_retry_spec ⟨403, "limited"⟩ ⟨200, "payload"⟩).2.1 rfl).2.1,
   (fetch_retry_spec ⟨403, "limited"⟩ ⟨500, "boom"⟩).2.2.2.2.1 rfl (by decide),
   (fetch_retry_spec ⟨404, "missing"⟩ ⟨200, "unused"⟩).2.2.2.2.2 (by decide)
     (by decide)⟩

/-- C4: when the repo-details fetch succeeds, the record's final
`interesting` flag is `true` iff its final `branch_count`, `ahead_by` or
`stars` value is positive. -/
theorem analyze_fork_interesting_iff (owner : String) (env : ApiEnv)
    (rd : RepoData) (h : env.repo = Except.ok rd) :
    (analyze_fork owner env).interesting = some true ↔
      ((analyze_fork owner env).branch_count.getD 0 > 0 ∨
       (analyze_fork owner env).ahead_by.getD 0 > 0 ∨
       (analyze_fork owner env).stars.getD 0 > 0) := by
  obtain ⟨repo, branches, commits, comparison⟩ := env
  simp only at h
  subst h
  simp [analyze_fork]
  tauto

/-- Witness for C4: in `envAllOk` the custom branch `dev` makes the record
interesting. -/
theorem analyze_fork_interesting_iff_witness :
    (analyze_fork "owner1" envAllOk).interesting = some true :=
  (analyze_fork_interesting_iff "owner1" envAllOk { stargazers_count := some 2 }
      rfl).mpr (by decide)

/-- C8: when the repo-details fetch succeeds, a successful commits fetch
sets `recent_commits` to the first lines of the returned messages in API
order (one entry per message, hence at most 10 when the API honours
`per_page=10`), and a failing commits fetch leaves it empty. -/
theorem analyze_fork_commits_spec (owner : String) (env : ApiEnv)
    (rd : RepoData) (hrepo : env.repo = Except.ok rd) :
    (∀ msgs, env.commits = Except.ok msgs →
      (analyze_fork owner env).recent_commits = some (msgs.map firstLine)
      ∧ (msgs.map firstLine).length = msgs.length
      ∧ (msgs.length ≤ 10 →
          ((analyze_fork owner env).recent_commits.getD []).length ≤ 10))
    ∧ (∀ e, env.commits = Except.error e →
        (analyze_fork owner env).recent_commits = some []) := by
  obtain ⟨repo, branches, commits, comparison⟩ := env
  simp only at hrepo
  subst hrepo
  constructor
  · intro msgs hc
    simp only at hc
    subst hc
    refine ⟨by simp [analyze_fork], by simp, ?_⟩
    intro hlen
    simp [analyze_fork]
    omega
  · intro e hc
    simp only at hc
    subst hc
    simp [analyze_fork]

/-- Witness for C8: in `envAllOk` the two commit messages are reduced to
their first lines in order; in an environment with a failing commits fetch
the list is empty. -/
theorem analyze_fork_commits_spec_witness :
    (analyze_fork "owner1" envAllOk).recent_commits =
      some ["Fix crash", "Merge branch main"]
    ∧ (analyze_fork "owner2"
        { envAllOk with commits := Except.error "boom" }).recent_commits =
      some [] :=
  ⟨by
    have h := ((analyze_fork_commits_spec "owner1" envAllOk
        { stargazers_count := some 2 } rfl).1
        ["Fix crash\nlong body", "Merge branch main"] rfl).1
    rw [h]
    decide,
   (analyze_fork_commits_spec "owner2"
      { envAllOk with commits := Except.error "boom" }
      { stargazers_count := some 2 } rfl).2 "boom" rfl⟩


theorem pairwise_of_getElem {R : Record → Record → Prop} {l : List Record}
    (h : l.Pairwise R) {i j : Nat} {a b : Record}
    (ha : l[i]? = some a) (hb : l[j]? = some b) (hij : i < j) : R a b := by
  obtain ⟨hi, rfl⟩ := List.getElem?_eq_some.mp ha
  obtain ⟨hj, rfl⟩ := List.getElem?_eq_some.mp hb
  exact List.pairwise_iff_getElem.mp h i j hi hj hij

/-- C1: the list both report sections draw from (details show its first
20 entries, recommendations its first 5) is exactly the interesting
records, sorted: it is a permutation of the filtered input; an earlier
entry's key triple is lexicographically ≥ a later one's; an entry whose
key is strictly below another's comes strictly after it; and records
tying on the whole key keep their input order (stability), which makes
the order deterministic in the input order. -/
theorem report_sections_sorted (results : List Record) :
    List.Perm (sortedInteresting results) (interestingOf results)
    ∧ (∀ r, r ∈ interestingOf results ↔
        (r ∈ results ∧ r.interesting.getD false = true))
    ∧ (∀ (i j : Nat) (a b : Record), (sortedInteresting results)[i]? = some a →
        (sortedInteresting results)[j]? = some b → i < j → recLE a b = true)
    ∧ (∀ (i j : Nat) (a b : Record), (sortedInteresting results)[i]? = some a →
        (sortedInteresting results)[j]? = some b → recLE a b = false → j < i)
    ∧ (∀ k : Int × Int × Int,
        (sortedInteresting results).filter (fun x => decide (sortKeyOf x = k)) =
          (interestingOf results).filter (fun x => decide (sortKeyOf x = k))) := by
  refine ⟨sortRecords_perm _, ?_, ?_, ?_, sortRecords_filter_key _⟩
  · intro r
    simp [interestingOf, List.mem_filter]
  · intro i j a b ha hb hij
    exact pairwise_of_getElem (sortRecords_pairwise _) ha hb hij
  · intro i j a b ha hb hfalse
    rcases Nat.lt_trichotomy i j with h | h | h
    · have := pairwise_of_getElem (sortRecords_pairwise _) ha hb h
      rw [this] at hfalse
      exact absurd hfalse (by simp)
    · subst h
      rw [ha] at hb
      injection hb with hb
      subst hb
      rw [recLE_refl] at hfalse
      exact absurd hfalse (by simp)
    · exact h

/-- Witness for C1: with `recLow` (1 star) before `recHigh` (5 stars) in
the input, the sorted list puts `recHigh` first, and the pairwise bound
instantiates at positions 0 and 1. -/
theorem report_sections_sorted_witness :
    recLE recHigh recLow = true
    ∧ recHigh ∈ interestingOf [recLow, recHigh] :=
  ⟨(report_sections_sorted [recLow, recHigh]).2.2.1 0 1 recHigh recLow
      (by decide) (by decide) (by decide),
   ((report_sections_sorted [recLow, recHigh]).2.1 recHigh).mpr
      ⟨by decide, by decide⟩⟩

/-- C5: a recent-commit line is dropped from the unique-commit list iff
its lower-cased text contains `merge`, `upstream` or `sync` (so any casing
is excluded, at any list position); at most the first 3 survivors are
shown, each truncated to its first 80 characters. -/
theorem commit_filter_spec (cs : List String) :
    (∀ c, c ∈ cs →
      (c ∉ uniqueCommits cs ↔
        mergeKeywords.any (fun kw => hasSubstr (lower c) kw) = true))
    ∧ (shownCommitLines cs).length ≤ 3
    ∧ (∀ s, s ∈ shownCommitLines cs → ∃ c, c ∈ uniqueCommits cs ∧
        s = "  - " ++ truncate80 c ∧ (truncate80 c).length ≤ 80) := by
  refine ⟨?_, ?_, ?_⟩
  · intro c hc
    have hmf : c ∈ uniqueCommits cs ↔
        c ∈ cs ∧ (!(mergeKeywords.any (fun kw => hasSubstr (lower c) kw))) = true := by
      unfold uniqueCommits
      exact List.mem_filter
    constructor
    · intro hnot
      cases hany : mergeKeywords.any (fun kw => hasSubstr (lower c) kw) with
      | true => rfl
      | false =>
        exact absurd (hmf.mpr ⟨hc, by rw [hany]; rfl⟩) hnot
    · intro hany hmem
      have h2 := (hmf.mp hmem).2
      rw [hany] at h2
      simp at h2
  · simp only [shownCommitLines, List.length_map, List.length_take]
    omega
  · intro s hs
    simp only [shownCommitLines, List.mem_map] at hs
    obtain ⟨c, hc, rfl⟩ := hs
    refine ⟨c, List.mem_of_mem_take hc, rfl, ?_⟩
    have hlen : (truncate80 c).length = (c.toList.take 80).length := rfl
    rw [hlen, List.length_take]
    omega

/-- Witness for C5: `Merge`, `UPSTREAM` and `Sync` in any casing are
excluded wherever they appear, the plain commit survives, and the shown
lines are capped at 3. -/
theorem commit_filter_spec_witness :
    ("Merge pull request" ∉
      uniqueCommits ["Add feature", "Merge pull request", "Sync with UPSTREAM"])
    ∧ ("Sync with UPSTREAM" ∉
      uniqueCommits ["Add feature", "Merge pull request", "Sync with UPSTREAM"])
    ∧ ("Add feature" ∈
      uniqueCommits ["Add feature", "Merge pull request", "Sync with UPSTREAM"])
    ∧ (shownCommitLines
        ["Add feature", "Merge pull request", "Sync with UPSTREAM"]).length ≤ 3 :=
  ⟨((commit_filter_spec
      ["Add feature", "Merge pull request", "Sync with UPSTREAM"]).1
      "Merge pull request" (by decide)).mpr (by decide),
   ((commit_filter_spec
      ["Add feature", "Merge pull request", "Sync with UPSTREAM"]).1
      "Sync with UPSTREAM" (by decide)).mpr (by decide),
   by decide,
   (commit_filter_spec
      ["Add feature", "Merge pull request", "Sync with UPSTREAM"]).2.1⟩

/-- C9: `generate_report` does not mutate its input.  The embedding
threads the Python variables: the filter binds a fresh list
`interesting`, the in-place sort is applied to that fresh list, and the
caller's `results` list — returned as the second component of
`generate_report_run` — is exactly the input, element for element, while
the first component is the report text. -/
theorem generate_report_no_mutation (results : List Record) (now : String) :
    (generate_report_run results now).2 = results
    ∧ (generate_report_run results now).1 = generate_report results now :=
  ⟨rfl, rfl⟩


theorem isSome_bind {α β} {o : Option α} {f : α → Option β} (h1 : o.isSome)
    (h2 : ∀ a, o = some a → (f a).isSome) : (o.bind f).isSome := by
  obtain ⟨a, ha⟩ := Option.isSome_iff_exists.mp h1
  rw [ha]
  exact h2 a ha

theorem guarded_isSome {α β} {g : Prop} [Decidable g] {o : Option α}
    {f : α → Option β} {dflt : Option β} (hg : g → o.isSome)
    (hf : ∀ a, (f a).isSome) (hd : dflt.isSome) :
    (if g then o.bind f else dflt).isSome := by
  by_cases h : g
  · rw [if_pos h]
    exact isSome_bind (hg h) (fun a _ => hf a)
  · rw [if_neg h]
    exact hd

theorem mapOpt_isSome {α β} (f : α → Option β) (l : List α)
    (h : ∀ x, x ∈ l → (f x).isSome) : (mapOpt f l).isSome := by
  induction l with
  | nil => rfl
  | cons x xs ih =>
    refine isSome_bind (h x (List.mem_cons_self x xs)) (fun y _ => ?_)
    refine isSome_bind (ih (fun z hz => h z (List.mem_cons_of_mem x hz)))
      (fun ys _ => rfl)

theorem snd_mem_of_mem_enumFrom {n : Nat} {l : List Record} {p : Nat × Record}
    (h : p ∈ List.enumFrom n l) : p.2 ∈ l := by
  induction l generalizing n with
  | nil => simp [List.enumFrom] at h
  | cons x xs ih =>
    rcases List.mem_cons.mp h with h1 | h1
    · subst h1
      exact List.mem_cons_self x xs
    · exact List.mem_cons_of_mem x (ih h1)

theorem getD_isSome_of_true {o : Option String} (h : o.getD "" ≠ "") :
    o.isSome := by
  cases o with
  | none => simp at h
  | some a => rfl

theorem getD_isSome_of_pos {o : Option Int} (h : o.getD 0 > 0) : o.isSome := by
  cases o with
  | none => simp at h
  | some a => rfl

theorem getD_isSome_of_ne_nil {o : Option (List String)} (h : o.getD [] ≠ []) :
    o.isSome := by
  cases o with
  | none => simp at h
  | some a => rfl

theorem detailEntry_isSome (i : Nat) (fork : Record)
    (h1 : fork.owner.isSome) (h2 : fork.url.isSome)
    (h3 : fork.custom_branches.isSome) : (detailEntry i fork).isSome := by
  refine isSome_bind h1 (fun o ho => ?_)
  refine isSome_bind h2 (fun u hu => ?_)
  refine isSome_bind (guarded_isSome getD_isSome_of_true (fun d => rfl) rfl)
    (fun l2 _ => ?_)
  refine isSome_bind (guarded_isSome (fun _ => h3) (fun bs => rfl) rfl)
    (fun l3 _ => ?_)
  refine isSome_bind (guarded_isSome getD_isSome_of_pos (fun a => rfl) rfl)
    (fun l4 _ => ?_)
  refine isSome_bind (guarded_isSome getD_isSome_of_pos (fun b => rfl) rfl)
    (fun l5 _ => ?_)
  refine isSome_bind (guarded_isSome getD_isSome_of_ne_nil (fun rc => ?_) rfl)
    (fun l6 _ => rfl)
  by_cases hrc : uniqueCommits rc ≠ []
  · rw [if_pos hrc]
    rfl
  · rw [if_neg hrc]
    rfl

theorem recEntry_isSome (i : Nat) (fork : Record)
    (h1 : fork.owner.isSome) (h2 : fork.url.isSome) :
    (recEntry i fork).isSome := by
  refine isSome_bind h1 (fun o ho => ?_)
  refine isSome_bind h2 (fun u hu => ?_)
  refine isSome_bind (guarded_isSome getD_isSome_of_pos (fun st => rfl) rfl)
    (fun r1 _ => ?_)
  refine isSome_bind (guarded_isSome getD_isSome_of_pos (fun a => rfl) rfl)
    (fun r2 _ => ?_)
  refine isSome_bind (guarded_isSome getD_isSome_of_pos (fun b => rfl) rfl)
    (fun r3 _ => rfl)

/-- Fields available on a record that sits in `sortedInteresting results`
of a well-formed record list. -/
theorem sortedInteresting_fields {results : List Record}
    (hwf : ∀ r, r ∈ results → WellFormed r) {r : Record}
    (hr : r ∈ sortedInteresting results) :
    r.owner.isSome ∧ r.url.isSome ∧ r.custom_branches.isSome := by
  have hmem : r ∈ interestingOf results := mem_sortRecords.mp hr
  have h2 := List.mem_filter.mp hmem
  have hw := hwf r h2.1 (by simpa using h2.2)
  exact ⟨hw.1, hw.2.1, hw.2.2.2.2.1⟩

theorem detailBlock_isSome {results : List Record}
    (hwf : ∀ r, r ∈ results → WellFormed r) :
    (detailBlock (sortedInteresting results)).isSome := by
  unfold detailBlock
  by_cases hne : sortedInteresting results ≠ []
  · rw [if_pos hne]
    refine isSome_bind (mapOpt_isSome _ _ (fun p hp => ?_)) (fun es _ => rfl)
    have hmem : p.2 ∈ sortedInteresting results :=
      List.mem_of_mem_take (snd_mem_of_mem_enumFrom hp)
    obtain ⟨ho, hu, hc⟩ := sortedInteresting_fields hwf hmem
    exact detailEntry_isSome p.1 p.2 ho hu hc
  · rw [if_neg hne]
    rfl

theorem recommendationsBlock_isSome {results : List Record}
    (hwf : ∀ r, r ∈ results → WellFormed r) :
    (recommendationsBlock (sortedInteresting results)).isSome := by
  unfold recommendationsBlock
  by_cases hne : (sortedInteresting results).take 5 ≠ []
  · rw [if_pos hne]
    refine isSome_bind (mapOpt_isSome _ _ (fun p hp => ?_)) (fun es _ => rfl)
    have hmem : p.2 ∈ sortedInteresting results :=
      List.mem_of_mem_take (snd_mem_of_mem_enumFrom hp)
    obtain ⟨ho, hu, hc⟩ := sortedInteresting_fields hwf hmem
    exact recEntry_isSome p.1 p.2 ho hu
  · rw [if_neg hne]
    rfl

/-- Shape of the produced line list once both blocks are known. -/
theorem reportLines_eq (results : List Record) (now : String)
    {db rb : List String}
    (hdb : detailBlock (sortedInteresting results) = some db)
    (hrb : recommendationsBlock (sortedInteresting results) = some rb) :
    reportLines results now =
      some (["# 1code Fork Analysis Report", "Generated: " ++ now, ""]
            ++ summaryBlock results (sortedInteresting results)
            ++ db
            ++ ["## Recommendations", ""]
            ++ rb) := by
  unfold reportLines reportFromSorted
  rw [hdb, hrb]
  rfl

theorem reportLines_isSome {results : List Record} (now : String)
    (hwf : ∀ r, r ∈ results → WellFormed r) :
    (reportLines results now).isSome := by
  obtain ⟨db, hdb⟩ := Option.isSome_iff_exists.mp (detailBlock_isSome hwf)
  obtain ⟨rb, hrb⟩ :=
    Option.isSome_iff_exists.mp (recommendationsBlock_isSome hwf)
  rw [reportLines_eq results now hdb hrb]
  rfl


/-- C3: when the repo-details fetch fails, `analyze_fork` returns the
minimal record carrying only `owner`, the failure message in `error`, and
`interesting = false`; in any well-formed record list that record causes
no `KeyError` in `generate_report` (the report is produced), is excluded
from the filtered list both sections and all interesting-derived counts
are computed from, yet is counted in the total, which is the length of
the full input list it belongs to. -/
theorem analyze_fork_error_safe (owner : String) (env : ApiEnv) (msg : String)
    (h : env.repo = Except.error msg) :
    analyze_fork owner env =
      { owner := some owner, interesting := some false,
        error := some (some msg) }
    ∧ ∀ results now, analyze_fork owner env ∈ results →
        (∀ r, r ∈ results → WellFormed r) →
        (∃ ls, reportLines results now = some ls
          ∧ ("- Total forks analyzed: " ++ toString results.length) ∈ ls)
        ∧ analyze_fork owner env ∉ interestingOf results
        ∧ analyze_fork owner env ∉ sortedInteresting results := by
  obtain ⟨repo, branches, commits, comparison⟩ := env
  simp only at h
  subst h
  have hrec : analyze_fork owner
      { repo := Except.error msg, branches := branches, commits := commits,
        comparison := comparison } =
      { owner := some owner, interesting := some false,
        error := some (some msg) } := rfl
  refine ⟨hrec, ?_⟩
  intro results now hmem hwf
  have hnotI : analyze_fork owner
      { repo := Except.error msg, branches := branches, commits := commits,
        comparison := comparison } ∉ interestingOf results := by
    intro hmemI
    have h2 := (List.mem_filter.mp hmemI).2
    rw [hrec] at h2
    simp at h2
  obtain ⟨db, hdb⟩ := Option.isSome_iff_exists.mp (detailBlock_isSome hwf)
  obtain ⟨rb, hrb⟩ :=
    Option.isSome_iff_exists.mp (recommendationsBlock_isSome hwf)
  refine ⟨⟨_, reportLines_eq results now hdb hrb, ?_⟩, hnotI, ?_⟩
  · simp [summaryBlock]
  · intro hmemS
    exact hnotI (mem_sortRecords.mp hmemS)

/-- Witness for C3: a failing repo fetch for owner `bad` produces exactly
the three-field record; placed next to `recHigh` it is dropped from the
interesting list while the report still comes out. -/
theorem analyze_fork_error_safe_witness :
    analyze_fork "bad" envRepoFails =
      { owner := some "bad", interesting := some false,
        error := some (some "404 Client Error") }
    ∧ analyze_fork "bad" envRepoFails ∉
        interestingOf [analyze_fork "bad" envRepoFails, recHigh]
    ∧ (∃ ls, reportLines [analyze_fork "bad" envRepoFails, recHigh] "t" = some ls
        ∧ ("- Total forks analyzed: " ++
            toString [analyze_fork "bad" envRepoFails, recHigh].length) ∈ ls) := by
  have hwf : ∀ r, r ∈ [analyze_fork "bad" envRepoFails, recHigh] →
      WellFormed r := by
    intro r hr
    rcases List.mem_cons.mp hr with h1 | h1
    · rw [h1]
      exact analyze_fork_wellFormed _ _
    · rcases List.mem_cons.mp h1 with h2 | h2
      · rw [h2]
        intro _
        refine ⟨rfl, rfl, rfl, rfl, rfl, rfl, rfl, rfl, rfl⟩
      · simp at h2
  have hmain := (analyze_fork_error_safe "bad" envRepoFails "404 Client Error"
      rfl).2 [analyze_fork "bad" envRepoFails, recHigh] "t"
      (List.mem_cons_self _ _) hwf
  exact ⟨(analyze_fork_error_safe "bad" envRepoFails "404 Client Error" rfl).1,
    hmain.2.1, hmain.1⟩


/-- C6: the report is a pure function of the record list and the clock
reading: for any two runs on the same list the lines after the two-line
header coincide exactly, the header is the fixed title plus the
`Generated:` line holding the timestamp (the only timestamp-dependent
line), and equal timestamps give byte-identical output. -/
theorem generate_report_timestamp_only (results : List Record)
    (now1 now2 : String) (ls1 ls2 : List String)
    (h1 : reportLines results now1 = some ls1)
    (h2 : reportLines results now2 = some ls2) :
    ls1.drop 2 = ls2.drop 2
    ∧ ls1.take 2 = ["# 1code Fork Analysis Report", "Generated: " ++ now1]
    ∧ (now1 = now2 → generate_report results now1 = generate_report results now2) := by
  unfold reportLines reportFromSorted at h1 h2
  cases hdb : detailBlock (sortedInteresting results) with
  | none =>
    rw [hdb] at h1
    simp at h1
  | some db =>
    rw [hdb] at h1 h2
    cases hrb : recommendationsBlock (sortedInteresting results) with
    | none =>
      rw [hrb] at h1
      simp at h1
    | some rb =>
      rw [hrb] at h1 h2
      simp only [Option.some_bind, Option.some_inj] at h1 h2
      subst h1
      subst h2
      refine ⟨rfl, rfl, ?_⟩
      intro he
      rw [he]

/-- Witness for C6 at the empty record list and two distinct timestamps:
the outputs differ only in the `Generated:` line. -/
theorem generate_report_timestamp_only_witness :
    (["# 1code Fork Analysis Report", "Generated: early", "", "## Summary",
      "- Total forks analyzed: 0", "- Interesting forks: 0",
      "- Forks with custom branches: 0", "- Forks ahead of upstream: 0",
      "- Forked repos with stars: 0", "", "## Recommendations", ""]
        : List String).drop 2 =
      (["# 1code Fork Analysis Report", "Generated: late", "", "## Summary",
        "- Total forks analyzed: 0", "- Interesting forks: 0",
        "- Forks with custom branches: 0", "- Forks ahead of upstream: 0",
        "- Forked repos with stars: 0", "", "## Recommendations", ""]
          : List String).drop 2
    ∧ (["# 1code Fork Analysis Report", "Generated: early", "", "## Summary",
        "- Total forks analyzed: 0", "- Interesting forks: 0",
        "- Forks with custom branches: 0", "- Forks ahead of upstream: 0",
        "- Forked repos with stars: 0", "", "## Recommendations", ""]
          : List String).take 2 =
      ["# 1code Fork Analysis Report", "Generated: " ++ "early"] :=
  by
  have h := generate_report_timestamp_only [] "early" "late"
    (["# 1code Fork Analysis Report", "Generated: early", "", "## Summary",
      "- Total forks analyzed: 0", "- Interesting forks: 0",
      "- Forks with custom branches: 0", "- Forks ahead of upstream: 0",
      "- Forked repos with stars: 0", "", "## Recommendations", ""])
    (["# 1code Fork Analysis Report", "Generated: late", "", "## Summary",
      "- Total forks analyzed: 0", "- Interesting forks: 0",
      "- Forks with custom branches: 0", "- Forks ahead of upstream: 0",
      "- Forked repos with stars: 0", "", "## Recommendations", ""])
    (by decide) (by decide)
  exact ⟨h.1, h.2.1⟩

theorem head_append {p : String} {c : Char} (s : String)
    (hp : p.data.head? = some c) : (p ++ s).data.head? = some c := by
  rw [String.data_append]
  cases hd : p.data with
  | nil =>
    rw [hd] at hp
    simp at hp
  | cons a as =>
    rw [hd] at hp
    simp at hp
    simp [hp]

theorem sortRecords_eq_nil_iff {l : List Record} : sortRecords l = [] ↔ l = [] := by
  constructor
  · intro h
    have hperm := sortRecords_perm l
    rw [h] at hperm
    exact hperm.symm.eq_nil
  · intro h
    subst h
    rfl

theorem interestingOf_ne_nil_iff {results : List Record} :
    interestingOf results ≠ [] ↔
      (∃ r, r ∈ results ∧ r.interesting.getD false = true) := by
  constructor
  · intro hne
    by_contra hnex
    push_neg at hnex
    apply hne
    unfold interestingOf
    rw [List.filter_eq_nil_iff]
    intro a ha
    simp only [Bool.not_eq_true]
    exact Bool.not_eq_true _ |>.mp (hnex a ha)
  · rintro ⟨r, hr, hP⟩ hnil
    unfold interestingOf at hnil
    rw [List.filter_eq_nil_iff] at hnil
    exact hnil r hr (by simpa using hP)

theorem detailBlock_mem_header {S : List Record} {db : List String}
    (hne : S ≠ []) (hdb : detailBlock S = some db) :
    "## Most Interesting Forks" ∈ db := by
  unfold detailBlock at hdb
  rw [if_pos hne] at hdb
  cases hm : mapOpt (fun p => detailEntry p.1 p.2) (List.enumFrom 1 (S.take 20)) with
  | none =>
    rw [hm] at hdb
    simp at hdb
  | some es =>
    rw [hm] at hdb
    simp only [Option.some_bind, Option.some_inj] at hdb
    rw [← hdb]
    exact List.mem_cons_self _ _

theorem recommendationsBlock_mem_header {S : List Record} {rb : List String}
    (hne : S ≠ []) (hrb : recommendationsBlock S = some rb) :
    "### Top 5 Forks to Review:" ∈ rb := by
  have hne5 : S.take 5 ≠ [] := by
    intro h
    rcases List.take_eq_nil_iff.mp h with h5 | h5
    · exact absurd h5 (by decide)
    · exact hne h5
  unfold recommendationsBlock at hrb
  rw [if_pos hne5] at hrb
  cases hm : mapOpt (fun p => recEntry p.1 p.2) (List.enumFrom 1 (S.take 5)) with
  | none =>
    rw [hm] at hrb
    simp at hrb
  | some es =>
    rw [hm] at hrb
    simp only [Option.some_bind, Option.some_inj] at hrb
    rw [← hrb]
    exact List.mem_cons_self _ _

/-- Lines of the report of a run with no interesting record never contain
a string that differs from every fixed line and starts with neither `G`
(the timestamp line) nor `-` (the count lines). -/
theorem not_mem_report_no_interesting (results : List Record) (now t : String)
    (h1 : t ≠ "# 1code Fork Analysis Report")
    (h2 : t.data.head? ≠ some 'G')
    (h3 : t ≠ "")
    (h4 : t ≠ "## Summary")
    (h5 : t.data.head? ≠ some '-')
    (h6 : t ≠ "## Recommendations") :
    t ∉ (["# 1code Fork Analysis Report", "Generated: " ++ now, ""]
         ++ summaryBlock results []
         ++ [] ++ ["## Recommendations", ""] ++ []) := by
  intro hmem
  simp only [summaryBlock, List.cons_append, List.nil_append, List.append_nil,
    List.mem_cons, List.not_mem_nil, or_false] at hmem
  rcases hmem with h | h | h | h | h | h | h | h | h | h | h | h
  · exact h1 h
  · exact h2 (h ▸ head_append now (by decide))
  · exact h3 h
  · exact h4 h
  · exact h5 (h ▸ head_append _ (by decide))
  · exact h5 (h ▸ head_append _ (by decide))
  · exact h5 (h ▸ head_append _ (by decide))
  · exact h5 (h ▸ head_append _ (by decide))
  · exact h5 (h ▸ head_append _ (by decide))
  · exact h3 h
  · exact h6 h
  · exact h3 h

/-- C10: for every well-formed record list (the shapes `analyze_fork`
produces) the report is generated without error; it always starts with
the fixed title and contains the `## Summary` and `## Recommendations`
headings; the `## Most Interesting Forks` section and the
`### Top 5 Forks to Review:` heading appear iff some input record is
interesting. -/
theorem report_structure (results : List Record) (now : String)
    (hwf : ∀ r, r ∈ results → WellFormed r) :
    ∃ ls, reportLines results now = some ls
      ∧ generate_report results now = some (String.intercalate "\n" ls)
      ∧ ls.head? = some "# 1code Fork Analysis Report"
      ∧ "## Summary" ∈ ls
      ∧ "## Recommendations" ∈ ls
      ∧ ("## Most Interesting Forks" ∈ ls ↔
          ∃ r, r ∈ results ∧ r.interesting.getD false = true)
      ∧ ("### Top 5 Forks to Review:" ∈ ls ↔
          ∃ r, r ∈ results ∧ r.interesting.getD false = true) := by
  obtain ⟨db, hdb⟩ := Option.isSome_iff_exists.mp (detailBlock_isSome hwf)
  obtain ⟨rb, hrb⟩ :=
    Option.isSome_iff_exists.mp (recommendationsBlock_isSome hwf)
  have hls := reportLines_eq results now hdb hrb
  refine ⟨_, hls, ?_, rfl, ?_, ?_, ?_, ?_⟩
  · have hgen : generate_report results now =
        (reportLines results now).map (String.intercalate "\n") := rfl
    rw [hgen, hls]
    rfl
  · simp [summaryBlock]
  · simp
  · by_cases hni : interestingOf results = []
    · have hs : sortedInteresting results = [] := by
        unfold sortedInteresting
        rw [hni]
        rfl
      rw [hs] at hdb hrb
      have hdbe : db = [] := by
        have : (some [] : Option (List String)) = some db := hdb
        exact (Option.some_inj.mp this).symm
      have hrbe : rb = [] := by
        have : (some [] : Option (List String)) = some rb := hrb
        exact (Option.some_inj.mp this).symm
      subst hdbe
      subst hrbe
      rw [hs]
      constructor
      · intro hmem
        exact absurd hmem (not_mem_report_no_interesting results now _
          (by decide) (by decide) (by decide) (by decide) (by decide) (by decide))
      · intro hex
        exact absurd hni (interestingOf_ne_nil_iff.mpr hex)
    · have hsne : sortedInteresting results ≠ [] := by
        unfold sortedInteresting
        intro h
        exact hni (sortRecords_eq_nil_iff.mp h)
      constructor
      · intro _
        exact interestingOf_ne_nil_iff.mp hni
      · intro _
        have hmemdb := detailBlock_mem_header hsne hdb
        simp [hmemdb]
  · by_cases hni : interestingOf results = []
    · have hs : sortedInteresting results = [] := by
        unfold sortedInteresting
        rw [hni]
        rfl
      rw [hs] at hdb hrb
      have hdbe : db = [] := by
        have : (some [] : Option (List String)) = some db := hdb
        exact (Option.some_inj.mp this).symm
      have hrbe : rb = [] := by
        have : (some [] : Option (List String)) = some rb := hrb
        exact (Option.some_inj.mp this).symm
      subst hdbe
      subst hrbe
      rw [hs]
      constructor
      · intro hmem
        exact absurd hmem (not_mem_report_no_interesting results now _
          (by decide) (by decide) (by decide) (by decide) (by decide) (by decide))
      · intro hex
        exact absurd hni (interestingOf_ne_nil_iff.mpr hex)
    · have hsne : sortedInteresting results ≠ [] := by
        unfold sortedInteresting
        intro h
        exact hni (sortRecords_eq_nil_iff.mp h)
      constructor
      · intro _
        exact interestingOf_ne_nil_iff.mp hni
      · intro _
        have hmemrb := recommendationsBlock_mem_header hsne hrb
        simp [hmemrb]

/-- Witness for C10: at the single-record list `[recHigh]` the report is
produced, both sections are present, and at `[]` the claim's hypotheses
also discharge. -/
theorem report_structure_witness :
    (reportLines [recHigh] "t").isSome
    ∧ (∃ r, r ∈ [recHigh] ∧ r.interesting.getD false = true) := by
  obtain ⟨ls, hls, hgen, hhead, hsum, hrec, hiff1, hiff2⟩ :=
    report_structure [recHigh] "t" (by
      intro r hr
      rcases List.mem_cons.mp hr with h1 | h1
      · rw [h1]
        intro _
        refine ⟨rfl, rfl, rfl, rfl, rfl, rfl, rfl, rfl, rfl⟩
      · simp at h1)
  refine ⟨by rw [hls]; rfl, hiff2.mp ?_⟩
  exact hiff2.mpr ⟨recHigh, List.mem_cons_self _ _, by decide⟩


/-- C7: the claim fails on the code.  `main` rebuilds `interesting` as the
unsorted filter of `results` and prints its first five, while the
report's `Top 5 Forks to Review` block lists the first five of the
sorted list: with a 1-star fork ahead of a 5-star fork in the input the
console order and the report order diverge. -/
theorem console_report_divergence :
    console_top [recLow, recHigh] = [recLow, recHigh]
    ∧ report_top [recLow, recHigh] = [recHigh, recLow]
    ∧ console_top [recLow, recHigh] ≠ report_top [recLow, recHigh]
    ∧ (∀ results, console_top results =
        (results.filter (fun r => r.interesting.getD false)).take 5) := by
  refine ⟨by decide, by decide, by decide, fun results => rfl⟩

end ForkAnalysis
